import Mathlib

/-!
# secure_files: a shallow embedding of `main.go`

The Go program encrypts files with AES-GCM, prefixes every ciphertext with a
nonce and an HMAC-SHA-256 tag, and keeps a hex-encoded key on disk.

Modelling decisions:

* a byte is `Fin 256`; Go strings and `[]byte` are `List Byte`;
* a path is the list of components of a cleaned absolute path;
* the file system, the random source and the audit log are explicit state
  (`World`); every call into a primitive, every write and every audit record
  is appended to `World.trace`; the audit log is kept apart from the files;
* `filepath.WalkDir` is modelled by the sequence of visits it makes
  (`WalkEntry`), which the directory functions fold over;
* the Go standard library is not part of the repository.  `encoding/hex`,
  `strings.TrimSpace`, `aes.NewCipher` (key-size check), the key padding of
  `crypto/hmac` and the `os` calls are modelled after their documented
  behaviour; the primitives themselves (`Seal`, `Open`, SHA-256) are
  parameters collected in `Crypto`, and the facts about them that a statement
  relies on are stated as the hypothesis `Crypto.Sound`.
-/

namespace SecureFiles

/-- One byte. -/
abbrev Byte := Fin 256

/-- Bytes of a Go string or byte slice. -/
abbrev Bytes := List Byte

/-! ## encoding/hex -/

/-- The table `hextable = "0123456789abcdef"` of `encoding/hex`. -/
def hextable : Bytes :=
  [48, 49, 50, 51, 52, 53, 54, 55, 56, 57, 97, 98, 99, 100, 101, 102]

/-- `hex.EncodeToString`: two table look-ups per byte, `v >> 4` and `v & 0x0f`. -/
def hexEncodeToString : Bytes → Bytes
  | [] => []
  | v :: rest =>
    hextable.getD (v.val / 16) 0 :: hextable.getD (v.val % 16) 0 :: hexEncodeToString rest

/-- The table `reverseHexTable` of `encoding/hex`: the value of a hex digit,
`0xff` for every other byte. -/
def reverseHexTable (c : Byte) : Nat :=
  if 48 ≤ c.val ∧ c.val ≤ 57 then c.val - 48
  else if 97 ≤ c.val ∧ c.val ≤ 102 then c.val - 87
  else if 65 ≤ c.val ∧ c.val ≤ 70 then c.val - 55
  else 255

deriving instance DecidableEq for Except

/-- Errors of `encoding/hex`. -/
inductive HexError
  | invalidByte (b : Byte)
  | errLength
  deriving DecidableEq, Repr

/-- `hex.DecodeString`: pairs of digits are decoded left to right; the first
bad digit gives `InvalidByteError`, a dangling last digit gives `ErrLength`
(after being checked itself).  The bytes Go returns next to a non-nil error
are dropped. -/
def hexDecodeString : Bytes → Except HexError Bytes
  | [] => .ok []
  | [p] => if reverseHexTable p > 15 then .error (.invalidByte p) else .error .errLength
  | p :: q :: rest =>
    if reverseHexTable p > 15 then .error (.invalidByte p)
    else if reverseHexTable q > 15 then .error (.invalidByte q)
    else
      match hexDecodeString rest with
      | .ok bs => .ok (Fin.ofNat (reverseHexTable p * 16 + reverseHexTable q) :: bs)
      | .error e => .error e

/-! ## strings.TrimSpace -/

/-- UTF-8 encodings of the code points for which `unicode.IsSpace` holds:
the six ASCII ones, U+0085, U+00A0, U+1680, U+2000..U+200A, U+2028, U+2029,
U+202F, U+205F and U+3000. -/
def spaceEncodings : List Bytes :=
  [[9], [10], [11], [12], [13], [32],
   [0xC2, 0x85], [0xC2, 0xA0], [0xE1, 0x9A, 0x80],
   [0xE2, 0x80, 0x80], [0xE2, 0x80, 0x81], [0xE2, 0x80, 0x82], [0xE2, 0x80, 0x83],
   [0xE2, 0x80, 0x84], [0xE2, 0x80, 0x85], [0xE2, 0x80, 0x86], [0xE2, 0x80, 0x87],
   [0xE2, 0x80, 0x88], [0xE2, 0x80, 0x89], [0xE2, 0x80, 0x8A],
   [0xE2, 0x80, 0xA8], [0xE2, 0x80, 0xA9], [0xE2, 0x80, 0xAF],
   [0xE2, 0x81, 0x9F], [0xE3, 0x80, 0x80]]

/-- Width of the white-space rune the text starts with, `0` when it starts
with none. -/
def leadingSpaceWidth (encs : List Bytes) (s : Bytes) : Nat :=
  match encs.find? (fun e => e.isPrefixOf s) with
  | some e => e.length
  | none => 0

/-- Drops white-space runes from the front; every round drops at least a byte,
so `s.length` rounds are enough. -/
def trimLeftFuel (encs : List Bytes) : Nat → Bytes → Bytes
  | 0, s => s
  | n + 1, s =>
    if leadingSpaceWidth encs s = 0 then s
    else trimLeftFuel encs n (s.drop (leadingSpaceWidth encs s))

/-- `strings.TrimLeftFunc(s, unicode.IsSpace)`. -/
def trimLeftSpace (s : Bytes) : Bytes := trimLeftFuel spaceEncodings s.length s

/-- `strings.TrimRightFunc(s, unicode.IsSpace)`: the same scan over the
reversed text with the reversed encodings. -/
def trimRightSpace (s : Bytes) : Bytes :=
  (trimLeftFuel (spaceEncodings.map List.reverse) s.length s.reverse).reverse

/-- `strings.TrimSpace`. -/
def trimSpace (s : Bytes) : Bytes := trimRightSpace (trimLeftSpace s)

/-! ## The world: file system, random source, audit log -/

/-- A cleaned absolute path, as its list of components. -/
abbrev Path := List Bytes

/-- What a path names. -/
inductive Node
  | file (data : Bytes)
  | dir
  deriving DecidableEq, Repr

/-- Go `error` values the program can return. -/
inductive Error
  | pathError (op : String) (p : Path)
  | keySizeError (n : Nat)
  | randError
  | gcmError
  | errOpen
  | hexError (e : HexError)
  | errorf (msg : String)
  deriving DecidableEq, Repr

/-- Observable steps: the audit records of `logEvent`, the calls into the
cryptographic primitives and the attempts to write a file. -/
inductive Event
  | log (event : String) (file : Path) (success : Bool)
  | hmac (data key : Bytes)
  | gcmSeal (key nonce plaintext : Bytes)
  | gcmOpen (key nonce ciphertext : Bytes)
  | write (p : Path) (data : Bytes)
  deriving DecidableEq, Repr

/-- The state around the program: the file system, the paths the process may
not open, the bytes `rand.Reader` will deliver, and the steps taken so far. -/
structure World where
  fs : Path → Option Node
  denied : Path → Bool
  entropy : Bytes
  trace : List Event

/-- `os.ReadFile`. -/
def readFile (w : World) (p : Path) : Except Error Bytes :=
  if w.denied p then .error (.pathError "open" p)
  else
    match w.fs p with
    | some (.file data) => .ok data
    | _ => .error (.pathError "open" p)

/-- Whether `os.WriteFile` can create or truncate `p`: the parent is a
directory, `p` itself is not one, and the process may open it. -/
def canWrite (w : World) (p : Path) : Bool :=
  p ≠ [] && !w.denied p && w.fs p.dropLast == some .dir && w.fs p != some .dir

/-- `os.WriteFile`: on success the path holds exactly `data`; on failure the
file system is as before. -/
def writeFile (w : World) (p : Path) (data : Bytes) : Option Error × World :=
  let w1 : World := { w with trace := w.trace ++ [.write p data] }
  if canWrite w p then
    (none, { w1 with fs := fun q => if q = p then some (.file data) else w.fs q })
  else (some (.pathError "open" p), w1)

/-- `io.ReadFull(rand.Reader, nonce)` for the 12-byte nonce. -/
def readNonce (w : World) : Except Error Bytes × World :=
  if 12 ≤ w.entropy.length then
    (.ok (w.entropy.take 12), { w with entropy := w.entropy.drop 12 })
  else (.error .randError, { w with entropy := [] })

/-- `logEvent`: one audit record, written to the log and echoed to the
console (the time stamp is not modelled). -/
def logEvent (event : String) (file : Path) (success : Bool) (w : World) : World :=
  { w with trace := w.trace ++ [.log event file success] }

/-! ## Cryptographic primitives -/

/-- The primitives of `crypto/cipher` and `crypto/hmac` the program calls. -/
structure Crypto where
  /-- whether `cipher.NewGCM` accepts the block made from this key -/
  newGCM : Bytes → Bool
  /-- `aesGCM.Seal(nil, nonce, plaintext, nil)` -/
  gcmSeal : Bytes → Bytes → Bytes → Bytes
  /-- `aesGCM.Open(nil, nonce, ciphertext, nil)` -/
  gcmOpen : Bytes → Bytes → Bytes → Option Bytes
  /-- the SHA-256 digest of a message -/
  sha256 : Bytes → Bytes

/-- HMAC-SHA-256 of `data` under `key` as `crypto/hmac` computes it (RFC 2104):
a key longer than the 64-byte block is hashed first, the key is padded with
zero bytes to the block size, and the digest is
`H((K xor opad) || H((K xor ipad) || data))`. -/
def Crypto.hmacSha256 (c : Crypto) (key data : Bytes) : Bytes :=
  let k := if 64 < key.length then c.sha256 key else key
  let block := k ++ List.replicate (64 - k.length) 0
  c.sha256 (block.map (fun b => b ^^^ 0x5c) ++ c.sha256 (block.map (fun b => b ^^^ 0x36) ++ data))

/-- `aes.NewCipher`: the key must be 16, 24 or 32 bytes long. -/
def aesNewCipher (key : Bytes) : Except Error Unit :=
  if key.length = 16 ∨ key.length = 24 ∨ key.length = 32 then .ok ()
  else .error (.keySizeError key.length)

/-- `generateHMAC(data, key)`. -/
def generateHMAC (c : Crypto) (data key : Bytes) (w : World) : Bytes × World :=
  (c.hmacSha256 key data, { w with trace := w.trace ++ [.hmac data key] })

/-- Size of the GCM nonce, `aesGCM.NonceSize()`. -/
def nonceSize : Nat := 12

/-- Size of a SHA-256 digest, `sha256.Size`. -/
def hmacSize : Nat := 32

/-- Text of the error returned on a tag mismatch. -/
def integrityMsg : String := "integrity check failed! Possible tampering detected ❌"

/-- What the statements assume of the Go library: `cipher.NewGCM` accepts
every AES block, `Open` undoes `Seal` under the same key and nonce, `Seal`
adds the 16-byte GCM tag, and a SHA-256 digest has 32 bytes. -/
structure Crypto.Sound (c : Crypto) : Prop where
  newGCM_ok : ∀ key, aesNewCipher key = .ok () → c.newGCM key = true
  open_seal : ∀ key nonce p, aesNewCipher key = .ok () → nonce.length = 12 →
    c.gcmOpen key nonce (c.gcmSeal key nonce p) = some p
  seal_length : ∀ key nonce p, (c.gcmSeal key nonce p).length = p.length + 16
  sha_length : ∀ m, (c.sha256 m).length = 32

/-! ## Key persistence -/

/-- `SaveKeyToFile`. -/
def SaveKeyToFile (key : Bytes) (filename : Path) (w : World) : Option Error × World :=
  writeFile w filename (hexEncodeToString key)

/-- `LoadKeyFromFile`. -/
def LoadKeyFromFile (filename : Path) (w : World) : Except Error Bytes :=
  match readFile w filename with
  | .error e => .error e
  | .ok keyHex =>
    match hexDecodeString (trimSpace keyHex) with
    | .ok key => .ok key
    | .error e => .error (.hexError e)

/-! ## Single files -/

/-- `EncryptFile`. -/
def EncryptFile (c : Crypto) (inputFile outputFile : Path) (key : Bytes) (w : World) :
    Option Error × World :=
  match readFile w inputFile with
  | .error e => (some e, logEvent "Encryption" inputFile false w)
  | .ok plaintext =>
    match aesNewCipher key with
    | .error e => (some e, logEvent "Encryption" inputFile false w)
    | .ok _ =>
      match readNonce w with
      | (.error e, w1) => (some e, logEvent "Encryption" inputFile false w1)
      | (.ok nonce, w1) =>
        if !c.newGCM key then (some .gcmError, logEvent "Encryption" inputFile false w1)
        else
          let ciphertext := c.gcmSeal key nonce plaintext
          let w2 : World := { w1 with trace := w1.trace ++ [.gcmSeal key nonce plaintext] }
          let (hmacHash, w3) := generateHMAC c ciphertext key w2
          let output := nonce ++ (hmacHash ++ ciphertext)
          match writeFile w3 outputFile output with
          | (some e, w4) => (some e, logEvent "Encryption" inputFile false w4)
          | (none, w4) => (none, logEvent "Encryption" inputFile true w4)

/-- `DecryptFile`. -/
def DecryptFile (c : Crypto) (inputFile outputFile : Path) (key : Bytes) (w : World) :
    Option Error × World :=
  match readFile w inputFile with
  | .error e => (some e, logEvent "Decryption" inputFile false w)
  | .ok ciphertext =>
    match aesNewCipher key with
    | .error e => (some e, logEvent "Decryption" inputFile false w)
    | .ok _ =>
      if !c.newGCM key then (some .gcmError, logEvent "Decryption" inputFile false w)
      else if ciphertext.length < nonceSize + hmacSize then
        (some (.errorf "ciphertext too short"), logEvent "Decryption" inputFile false w)
      else
        let nonce := ciphertext.take nonceSize
        let hmacReceived := (ciphertext.drop nonceSize).take hmacSize
        let ciphertext := ciphertext.drop (nonceSize + hmacSize)
        let (hmacCalculated, w1) := generateHMAC c ciphertext key w
        if hmacCalculated ≠ hmacReceived then
          (some (.errorf integrityMsg), logEvent "Tamper Detection" inputFile false w1)
        else
          let w2 : World := { w1 with trace := w1.trace ++ [.gcmOpen key nonce ciphertext] }
          match c.gcmOpen key nonce ciphertext with
          | none => (some .errOpen, logEvent "Decryption" inputFile false w2)
          | some plaintext =>
            match writeFile w2 outputFile plaintext with
            | (some e, w3) => (some e, logEvent "Decryption" inputFile false w3)
            | (none, w3) => (none, logEvent "Decryption" inputFile true w3)

/-! ## Directory trees -/

/-- `rel + suffix` on the text of a relative path: the suffix lands on the
last component. -/
def appendSuffix : Path → Bytes → Path
  | [], s => [s]
  | [c], s => [c ++ s]
  | c :: rest, s => c :: appendSuffix rest s

/-- Valid hex text: an even number of bytes, all of them hex digits. -/
def isHexText (s : Bytes) : Bool :=
  s.length % 2 == 0 && s.all (fun b => reverseHexTable b ≤ 15)

/-- Lower-case hex digits, the bytes `hex.EncodeToString` produces. -/
def isLowerHexDigit (b : Byte) : Bool :=
  (48 ≤ b.val && b.val ≤ 57) || (97 ≤ b.val && b.val ≤ 102)

/-! ## Sample worlds -/

/-- A world with an empty root directory, no restrictions, 24 bytes of
randomness and an empty trace. -/
def emptyWorld : World :=
  { fs := fun p => if p = [] then some .dir else none
    denied := fun _ => false
    entropy := List.replicate 24 7
    trace := [] }

/-- The world `emptyWorld` with a key file `k` holding the text `abcd`. -/
def shortKeyWorld : World :=
  { emptyWorld with
    fs := fun p => if p = [] then some .dir
                   else if p = [[107]] then some (.file [97, 98, 99, 100]) else none }

/-- A stand-in for SHA-256: 32 bytes of a running checksum. -/
def toyHash (m : Bytes) : Bytes :=
  (List.range 32).map (fun i =>
    Fin.ofNat (m.foldl (fun acc b => (31 * acc + b.val + i + 1) % 65521) 7))

/-- A stand-in for the primitives, used to instantiate statements: sealing
appends a 16-byte checksum of key, nonce and plaintext, opening checks it. -/
def toyCrypto : Crypto :=
  { newGCM := fun _ => true
    gcmSeal := fun key nonce p => p ++ (toyHash (key ++ nonce ++ p)).take 16
    gcmOpen := fun key nonce ct =>
      if ct.drop (ct.length - 16) =
          (toyHash (key ++ nonce ++ ct.take (ct.length - 16))).take 16 then
        some (ct.take (ct.length - 16))
      else none
    sha256 := toyHash }

/-- A 32-byte key. -/
def sampleKey : Bytes := List.replicate 32 9

/-- The world `emptyWorld` with a file `p` holding the bytes `1 2 3`. -/
def plainWorld : World :=
  { emptyWorld with
    fs := fun p => if p = [] then some .dir
                   else if p = [[112]] then some (.file [1, 2, 3]) else none }

/-- The world `emptyWorld` with a file `e` holding three bytes: an envelope
that is too short. -/
def shortEnvelopeWorld : World :=
  { emptyWorld with
    fs := fun p => if p = [] then some .dir
                   else if p = [[101]] then some (.file [1, 2, 3]) else none }

/-- The world `emptyWorld` with a file `e` holding 44 zero bytes followed by
sixteen zero bytes: a full-length envelope whose stored tag is all zero. -/
def forgedEnvelopeWorld : World :=
  { emptyWorld with
    fs := fun p => if p = [] then some .dir
                   else if p = [[101]] then some (.file (List.replicate 60 0)) else none }

/-- Audit records among the events. -/
def isLog : Event → Bool
  | .log _ _ _ => true
  | _ => false

/-- The tag-mismatch path of `DecryptFile`: the envelope was read, the cipher
was set up, the envelope has at least 44 bytes, and the tag computed over
bytes `[44:]` differs from bytes `[12:44]`. -/
def tagMismatch (c : Crypto) (w : World) (inputFile : Path) (key : Bytes) : Bool :=
  match readFile w inputFile with
  | .ok envelope =>
    aesNewCipher key == .ok () && c.newGCM key && decide (44 ≤ envelope.length) &&
      c.hmacSha256 key (envelope.drop 44) != (envelope.drop 12).take 32
  | .error _ => false

/-- One call added exactly one audit record, `record`, to the trace, and added
it last. -/
def OneRecord (before after : List Event) (record : Event) : Prop :=
  before <+: after ∧
  (after.drop before.length).filter isLog = [record] ∧
  after.getLast? = some record

/-- A 16-byte key. -/
def shortKey : Bytes := List.replicate 16 9

/-- The 24-byte key `shortKey` followed by eight zero bytes. -/
def paddedKey : Bytes := List.replicate 16 9 ++ List.replicate 8 0

/-- Another 32-byte key. -/
def otherKey : Bytes := List.replicate 32 8

/-! # Theorems -/

/-! ## Facts about encoding/hex and strings.TrimSpace -/

set_option maxRecDepth 100000 in
theorem hexDecode_encode (key : Bytes) :
    hexDecodeString (hexEncodeToString key) = .ok key := by
  induction key with
  | nil => rfl
  | cons v rest ih =>
    have hv : ∀ v : Byte,
        reverseHexTable (hextable.getD (v.val / 16) 0) ≤ 15 ∧
        reverseHexTable (hextable.getD (v.val % 16) 0) ≤ 15 ∧
        (Fin.ofNat (reverseHexTable (hextable.getD (v.val / 16) 0) * 16 +
          reverseHexTable (hextable.getD (v.val % 16) 0)) : Byte) = v := by
      decide
    obtain ⟨h1, h2, h3⟩ := hv v
    simp only [hexEncodeToString, hexDecodeString, ih]
    rw [if_neg (by omega), if_neg (by omega), h3]

set_option maxRecDepth 100000 in
theorem hexEncode_digits (key : Bytes) : ∀ b ∈ hexEncodeToString key, isLowerHexDigit b = true := by
  induction key with
  | nil => intro b hb; simp [hexEncodeToString] at hb
  | cons v rest ih =>
    have hv : ∀ v : Byte, isLowerHexDigit (hextable.getD (v.val / 16) 0) = true ∧
        isLowerHexDigit (hextable.getD (v.val % 16) 0) = true := by decide
    intro b hb
    simp only [hexEncodeToString, List.mem_cons] at hb
    rcases hb with rfl | rfl | hb
    · exact (hv v).1
    · exact (hv v).2
    · exact ih b hb

theorem leadingSpaceWidth_zero (encs : List Bytes) (b : Byte) (t : Bytes)
    (h : ∀ e ∈ encs, e.head? ≠ some b) (hne : [] ∉ encs) :
    leadingSpaceWidth encs (b :: t) = 0 := by
  have hnone : encs.find? (fun e => e.isPrefixOf (b :: t)) = none := by
    rw [List.find?_eq_none]
    intro e he hp
    cases e with
    | nil => exact hne he
    | cons e0 r =>
      simp only [List.isPrefixOf, Bool.and_eq_true, beq_iff_eq] at hp
      exact h _ he (by simp [hp.1])
  simp [leadingSpaceWidth, hnone]

theorem trimLeftFuel_fixed (encs : List Bytes) (n : Nat) (s : Bytes)
    (h : leadingSpaceWidth encs s = 0) : trimLeftFuel encs n s = s := by
  cases n with
  | zero => rfl
  | succ n => simp [trimLeftFuel, h]

theorem leadingSpaceWidth_nil (encs : List Bytes) (hne : [] ∉ encs) :
    leadingSpaceWidth encs [] = 0 := by
  have hnone : encs.find? (fun e => e.isPrefixOf []) = none := by
    rw [List.find?_eq_none]
    intro e he hp
    cases e with
    | nil => exact hne he
    | cons e0 r => simp [List.isPrefixOf] at hp
  simp [leadingSpaceWidth, hnone]

set_option maxRecDepth 100000 in
theorem hexDigit_not_space (b : Byte) (hb : isLowerHexDigit b = true) :
    (∀ e ∈ spaceEncodings, e.head? ≠ some b) ∧
    (∀ e ∈ spaceEncodings.map List.reverse, e.head? ≠ some b) := by
  revert b
  decide

/-- Text whose first and last byte are hex digits is left alone by `TrimSpace`. -/
theorem trimSpace_of_digits (s : Bytes) (h : ∀ b ∈ s, isLowerHexDigit b = true) :
    trimSpace s = s := by
  have hne1 : ([] : Bytes) ∉ spaceEncodings := by decide
  have hne2 : ([] : Bytes) ∉ spaceEncodings.map List.reverse := by decide
  have hleft : trimLeftSpace s = s := by
    unfold trimLeftSpace
    apply trimLeftFuel_fixed
    cases s with
    | nil => exact leadingSpaceWidth_nil _ hne1
    | cons b t =>
      exact leadingSpaceWidth_zero _ b t (hexDigit_not_space b (h b (by simp))).1 hne1
  have hright : trimRightSpace s = s := by
    unfold trimRightSpace
    rw [trimLeftFuel_fixed, List.reverse_reverse]
    cases hr : s.reverse with
    | nil => exact leadingSpaceWidth_nil _ hne2
    | cons b t =>
      have hb : b ∈ s := by
        have : b ∈ s.reverse := by simp [hr]
        simpa using this
      exact leadingSpaceWidth_zero _ b t (hexDigit_not_space b (h b hb)).2 hne2
  unfold trimSpace
  rw [hleft, hright]

theorem hexDecode_ok : ∀ (s bs : Bytes), hexDecodeString s = .ok bs →
    isHexText s = true ∧ 2 * bs.length = s.length
  | [], bs, h => by
    simp [hexDecodeString] at h; subst h; simp [isHexText]
  | [p], bs, h => by
    simp only [hexDecodeString] at h; split at h <;> simp at h
  | p :: q :: rest, bs, h => by
    simp only [hexDecodeString] at h
    split at h
    · simp at h
    · split at h
      · simp at h
      · cases hr : hexDecodeString rest with
        | error e => simp [hr] at h
        | ok bs1 =>
          simp only [hr, Except.ok.injEq] at h
          obtain ⟨h1, h2⟩ := hexDecode_ok rest bs1 hr
          subst h
          simp only [isHexText, Bool.and_eq_true, beq_iff_eq, List.all_eq_true,
            decide_eq_true_eq, List.length_cons, List.mem_cons] at h1 ⊢
          refine ⟨⟨by omega, ?_⟩, by omega⟩
          rintro b (rfl | rfl | hb)
          · omega
          · omega
          · exact h1.2 b hb

theorem hexDecode_of_hexText : ∀ (s : Bytes), isHexText s = true →
    ∃ bs, hexDecodeString s = .ok bs
  | [], _ => ⟨[], rfl⟩
  | [p], h => by simp [isHexText] at h
  | p :: q :: rest, h => by
    simp only [isHexText, Bool.and_eq_true, beq_iff_eq, List.all_eq_true,
      decide_eq_true_eq, List.length_cons, List.mem_cons] at h
    have hp := h.2 p (Or.inl rfl)
    have hq := h.2 q (Or.inr (Or.inl rfl))
    have hrest : isHexText rest = true := by
      simp only [isHexText, Bool.and_eq_true, beq_iff_eq, List.all_eq_true, decide_eq_true_eq]
      exact ⟨by omega, fun b hb => h.2 b (Or.inr (Or.inr hb))⟩
    obtain ⟨bs, hbs⟩ := hexDecode_of_hexText rest hrest
    refine ⟨Fin.ofNat (reverseHexTable p * 16 + reverseHexTable q) :: bs, ?_⟩
    simp only [hexDecodeString, hbs]
    rw [if_neg (by omega), if_neg (by omega)]

/-! ## Facts about the file system -/

theorem readFile_writeFile (w : World) (p : Path) (data : Bytes)
    (h : (writeFile w p data).1 = none) :
    readFile (writeFile w p data).2 p = .ok data := by
  unfold writeFile at h ⊢
  by_cases hc : canWrite w p = true
  · have hd : w.denied p = false := by
      simp only [canWrite, Bool.and_eq_true, Bool.not_eq_true'] at hc
      exact hc.1.1.2
    simp [hc, readFile, hd]
  · simp [hc] at h

/-! ## Key persistence (C7, C8) -/

/-- C7: loading the key file that `SaveKeyToFile` wrote succeeds and returns
the saved key, for every byte sequence; hex-decoding the trimmed hex encoding
of a key yields the key. -/
theorem C7_key_persistence_roundtrip (key : Bytes) (filename : Path) (w : World)
    (hsave : (SaveKeyToFile key filename w).1 = none) :
    LoadKeyFromFile filename (SaveKeyToFile key filename w).2 = .ok key ∧
    hexDecodeString (trimSpace (hexEncodeToString key)) = .ok key := by
  have htrim := trimSpace_of_digits _ (hexEncode_digits key)
  have hdec := hexDecode_encode key
  refine ⟨?_, by rw [htrim, hdec]⟩
  unfold SaveKeyToFile at hsave ⊢
  unfold LoadKeyFromFile
  rw [readFile_writeFile w filename _ hsave]
  simp only [htrim, hdec]

theorem C7_key_persistence_roundtrip_witness :
    (SaveKeyToFile [1, 2, 255] [[107]] emptyWorld).1 = none ∧
    LoadKeyFromFile [[107]] (SaveKeyToFile [1, 2, 255] [[107]] emptyWorld).2
      = .ok [1, 2, 255] :=
  ⟨by decide, (C7_key_persistence_roundtrip [1, 2, 255] [[107]] emptyWorld (by decide)).1⟩

/-- C8, as stated, fails: a key file holding `abcd` loads without error as the
two-byte key `ab cd`. -/
theorem C8_short_key_is_loaded :
    LoadKeyFromFile [[107]] shortKeyWorld = .ok [171, 205] ∧
    ([171, 205] : Bytes).length ≠ 32 := by
  decide

/-- C8, amended: for a readable key file, `LoadKeyFromFile` fails with a hex
format error exactly when the trimmed text is not valid hex; when the text is
valid hex it returns the decoded bytes, one for every two digits, whatever
their number. -/
theorem C8_load_key_validation (filename : Path) (w : World) (keyHex : Bytes)
    (hread : readFile w filename = .ok keyHex) :
    (isHexText (trimSpace keyHex) = false →
      ∃ e, LoadKeyFromFile filename w = .error (.hexError e)) ∧
    (isHexText (trimSpace keyHex) = true →
      ∃ key, LoadKeyFromFile filename w = .ok key ∧
        hexDecodeString (trimSpace keyHex) = .ok key ∧
        2 * key.length = (trimSpace keyHex).length) := by
  unfold LoadKeyFromFile
  rw [hread]
  constructor
  · intro hbad
    cases hd : hexDecodeString (trimSpace keyHex) with
    | error e => exact ⟨e, by simp [hd]⟩
    | ok bs =>
      have := (hexDecode_ok _ bs hd).1
      rw [hbad] at this
      cases this
  · intro hgood
    obtain ⟨bs, hbs⟩ := hexDecode_of_hexText _ hgood
    exact ⟨bs, by simp [hbs], hbs, (hexDecode_ok _ bs hbs).2⟩

theorem C8_load_key_validation_witness :
    readFile shortKeyWorld [[107]] = .ok [97, 98, 99, 100] ∧
    (isHexText (trimSpace [97, 98, 99, 100]) = true →
      ∃ key, LoadKeyFromFile [[107]] shortKeyWorld = .ok key ∧
        hexDecodeString (trimSpace [97, 98, 99, 100]) = .ok key ∧
        2 * key.length = (trimSpace [97, 98, 99, 100]).length) :=
  ⟨by decide, (C8_load_key_validation [[107]] shortKeyWorld [97, 98, 99, 100] (by decide)).2⟩

theorem toyHash_length (m : Bytes) : (toyHash m).length = 32 := by
  simp [toyHash]

theorem toyCrypto_sound : toyCrypto.Sound where
  newGCM_ok := fun _ _ => rfl
  open_seal := by
    intro key nonce p _ _
    have h16 : ((toyHash (key ++ nonce ++ p)).take 16).length = 16 := by
      simp [toyHash_length]
    have hlen : (p ++ (toyHash (key ++ nonce ++ p)).take 16).length - 16 = p.length := by
      rw [List.length_append, h16]; omega
    simp only [toyCrypto, hlen, List.take_left, List.drop_left, if_true]
  seal_length := by intro key nonce p; simp [toyCrypto, toyHash_length]
  sha_length := toyHash_length

theorem Crypto.Sound.hmac_length {c : Crypto} (hc : c.Sound) (key data : Bytes) :
    (c.hmacSha256 key data).length = 32 :=
  hc.sha_length _

/-- Zero bytes appended to a key that still fits the HMAC block do not change
the tag. -/
theorem hmacSha256_zero_extended_key (c : Crypto) (key data : Bytes) (n : Nat)
    (h : key.length + n ≤ 64) :
    c.hmacSha256 (key ++ List.replicate n 0) data = c.hmacSha256 key data := by
  have h1 : ¬ 64 < (key ++ List.replicate n (0 : Byte)).length := by
    simp only [List.length_append, List.length_replicate]; omega
  have h2 : ¬ 64 < key.length := by omega
  have h3 : key ++ List.replicate n (0 : Byte) ++
      List.replicate (64 - (key ++ List.replicate n (0 : Byte)).length) 0 =
      key ++ List.replicate (64 - key.length) 0 := by
    rw [List.append_assoc, List.append_replicate_replicate]
    congr 2
    simp only [List.length_append, List.length_replicate]
    omega
  simp only [Crypto.hmacSha256, if_neg h1, if_neg h2, h3]

/-! ## Single files (C1, C5) -/

theorem aesNewCipher_of_32 (key : Bytes) (h : key.length = 32) : aesNewCipher key = .ok () := by
  simp [aesNewCipher, h]

/-- The successful run of `EncryptFile`, step by step. -/
theorem EncryptFile_success (c : Crypto) (w : World) (inputFile outputFile : Path)
    (key plaintext : Bytes)
    (hin : readFile w inputFile = .ok plaintext)
    (hk : aesNewCipher key = .ok ())
    (hrand : 12 ≤ w.entropy.length)
    (hg : c.newGCM key = true)
    (hw : canWrite w outputFile = true) :
    EncryptFile c inputFile outputFile key w =
      (none,
       { fs := fun q => if q = outputFile then
                  some (.file (w.entropy.take 12 ++
                    (c.hmacSha256 key (c.gcmSeal key (w.entropy.take 12) plaintext) ++
                      c.gcmSeal key (w.entropy.take 12) plaintext)))
                else w.fs q
         denied := w.denied
         entropy := w.entropy.drop 12
         trace := w.trace ++
           [.gcmSeal key (w.entropy.take 12) plaintext,
            .hmac (c.gcmSeal key (w.entropy.take 12) plaintext) key,
            .write outputFile (w.entropy.take 12 ++
                    (c.hmacSha256 key (c.gcmSeal key (w.entropy.take 12) plaintext) ++
                      c.gcmSeal key (w.entropy.take 12) plaintext)),
            .log "Encryption" inputFile true] }) := by
  have hw' : ∀ (e : Bytes) (t : List Event),
      canWrite { fs := w.fs, denied := w.denied, entropy := e, trace := t } outputFile = true := by
    intro e t
    simpa [canWrite] using hw
  simp [EncryptFile, hin, hk, readNonce, hrand, hg, generateHMAC, writeFile, hw', logEvent]

/-- The run of `DecryptFile` on a well-formed envelope whose tag matches and
whose ciphertext opens. -/
theorem DecryptFile_success (c : Crypto) (w : World) (inputFile outputFile : Path)
    (key nonce tag ct plaintext : Bytes)
    (hin : readFile w inputFile = .ok (nonce ++ (tag ++ ct)))
    (hn : nonce.length = 12) (ht : tag.length = 32)
    (hk : aesNewCipher key = .ok ())
    (hg : c.newGCM key = true)
    (htag : c.hmacSha256 key ct = tag)
    (hopen : c.gcmOpen key nonce ct = some plaintext)
    (hw : canWrite w outputFile = true) :
    DecryptFile c inputFile outputFile key w =
      (none,
       { fs := fun q => if q = outputFile then some (.file plaintext) else w.fs q
         denied := w.denied
         entropy := w.entropy
         trace := w.trace ++
           [.hmac ct key, .gcmOpen key nonce ct, .write outputFile plaintext,
            .log "Decryption" inputFile true] }) := by
  have hw' : ∀ (t : List Event),
      canWrite { fs := w.fs, denied := w.denied, entropy := w.entropy, trace := t }
        outputFile = true := by
    intro t
    simpa [canWrite] using hw
  have h1 : (nonce ++ (tag ++ ct)).take nonceSize = nonce := by
    simp [nonceSize, List.take_append_eq_append_take, hn]
  have h2 : ((nonce ++ (tag ++ ct)).drop nonceSize).take hmacSize = tag := by
    simp [nonceSize, hmacSize, List.drop_append_eq_append_drop, List.take_append_eq_append_take,
      hn, ht]
  have h3 : (nonce ++ (tag ++ ct)).drop (nonceSize + hmacSize) = ct := by
    simp [nonceSize, hmacSize, List.drop_append_eq_append_drop, hn, ht]
  have h4 : ¬ (nonce ++ (tag ++ ct)).length < nonceSize + hmacSize := by
    simp [nonceSize, hmacSize, hn, ht]; omega
  simp only [DecryptFile, hin, hk, hg, h1, h2, h3, h4, generateHMAC, htag, hopen]
  simp [writeFile, hw', logEvent]

/-- C1: for every plaintext, 32-byte key and nonce drawn, `EncryptFile`
followed by `DecryptFile` with the same key returns no error twice and leaves
the plaintext in the output file. -/
theorem C1_round_trip (c : Crypto) (hc : c.Sound) (w : World)
    (inputFile encFile outFile : Path) (key plaintext : Bytes)
    (hkey : key.length = 32)
    (hin : readFile w inputFile = .ok plaintext)
    (hrand : 12 ≤ w.entropy.length)
    (hw1 : canWrite w encFile = true)
    (hw2 : canWrite (EncryptFile c inputFile encFile key w).2 outFile = true) :
    (EncryptFile c inputFile encFile key w).1 = none ∧
    (DecryptFile c encFile outFile key (EncryptFile c inputFile encFile key w).2).1 = none ∧
    readFile (DecryptFile c encFile outFile key (EncryptFile c inputFile encFile key w).2).2
      outFile = .ok plaintext := by
  have hk := aesNewCipher_of_32 key hkey
  have hg := hc.newGCM_ok key hk
  have hn : (w.entropy.take 12).length = 12 := by simp [List.length_take]; omega
  have hd1 : w.denied encFile = false := by
    simp only [canWrite, Bool.and_eq_true, Bool.not_eq_true'] at hw1
    exact hw1.1.1.2
  rw [EncryptFile_success c w inputFile encFile key plaintext hin hk hrand hg hw1] at hw2 ⊢
  have hd2 : w.denied outFile = false := by
    simp only [canWrite, Bool.and_eq_true, Bool.not_eq_true'] at hw2
    exact hw2.1.1.2
  rw [DecryptFile_success c _ encFile outFile key (w.entropy.take 12)
    (c.hmacSha256 key (c.gcmSeal key (w.entropy.take 12) plaintext))
    (c.gcmSeal key (w.entropy.take 12) plaintext) plaintext
    (by simp [readFile, hd1]) hn (hc.hmac_length _ _) hk hg rfl
    (hc.open_seal key _ plaintext hk hn) hw2]
  simp [readFile, hd2]

theorem C1_round_trip_witness :
    (EncryptFile toyCrypto [[112]] [[101]] sampleKey plainWorld).1 = none ∧
    (DecryptFile toyCrypto [[101]] [[111]] sampleKey
      (EncryptFile toyCrypto [[112]] [[101]] sampleKey plainWorld).2).1 = none ∧
    readFile (DecryptFile toyCrypto [[101]] [[111]] sampleKey
      (EncryptFile toyCrypto [[112]] [[101]] sampleKey plainWorld).2).2 [[111]]
      = .ok [1, 2, 3] :=
  C1_round_trip toyCrypto toyCrypto_sound plainWorld [[112]] [[101]] [[111]] sampleKey [1, 2, 3]
    (by decide) (by decide) (by decide) (by decide) (by decide)

/-- C5: the file `EncryptFile` writes is `N || T || C` with `C` the sealed
plaintext and `T` the HMAC of `C` alone; bytes `[0:12]` are the nonce, bytes
`[12:44]` the tag, bytes `[44:]` the ciphertext, and the length is
`len(P) + 60`. -/
theorem C5_envelope_layout (c : Crypto) (hc : c.Sound) (w : World)
    (inputFile outputFile : Path) (key plaintext : Bytes)
    (hkey : key.length = 32)
    (hin : readFile w inputFile = .ok plaintext)
    (hrand : 12 ≤ w.entropy.length)
    (hw : canWrite w outputFile = true) :
    ∃ envelope,
      readFile (EncryptFile c inputFile outputFile key w).2 outputFile = .ok envelope ∧
      envelope = w.entropy.take 12 ++
        c.hmacSha256 key (c.gcmSeal key (w.entropy.take 12) plaintext) ++
        c.gcmSeal key (w.entropy.take 12) plaintext ∧
      envelope.take 12 = w.entropy.take 12 ∧
      (envelope.drop 12).take 32 =
        c.hmacSha256 key (c.gcmSeal key (w.entropy.take 12) plaintext) ∧
      envelope.drop 44 = c.gcmSeal key (w.entropy.take 12) plaintext ∧
      envelope.length = 44 + (c.gcmSeal key (w.entropy.take 12) plaintext).length ∧
      envelope.length = plaintext.length + 60 := by
  have hk := aesNewCipher_of_32 key hkey
  have hg := hc.newGCM_ok key hk
  have hn : (w.entropy.take 12).length = 12 := by simp [List.length_take]; omega
  have ht := hc.hmac_length key (c.gcmSeal key (w.entropy.take 12) plaintext)
  have hl := hc.seal_length key (w.entropy.take 12) plaintext
  have hd : w.denied outputFile = false := by
    simp only [canWrite, Bool.and_eq_true, Bool.not_eq_true'] at hw
    exact hw.1.1.2
  rw [EncryptFile_success c w inputFile outputFile key plaintext hin hk hrand hg hw]
  refine ⟨_, by simp [readFile, hd]; rfl, by simp, ?_, ?_, ?_, ?_, ?_⟩
  · rw [List.take_append_eq_append_take]; simp [hn, ht]
  · rw [List.drop_append_eq_append_drop]; simp [hn, List.take_append_eq_append_take, ht]
  · rw [List.drop_append_eq_append_drop]; simp [hn, List.drop_append_eq_append_drop, ht]
  · simp [hn, ht]; omega
  · simp [hn, ht, hl]; omega

theorem C5_envelope_layout_witness :
    ∃ envelope,
      readFile (EncryptFile toyCrypto [[112]] [[101]] sampleKey plainWorld).2 [[101]]
        = .ok envelope ∧
      envelope = plainWorld.entropy.take 12 ++
        toyCrypto.hmacSha256 sampleKey
          (toyCrypto.gcmSeal sampleKey (plainWorld.entropy.take 12) [1, 2, 3]) ++
        toyCrypto.gcmSeal sampleKey (plainWorld.entropy.take 12) [1, 2, 3] ∧
      envelope.take 12 = plainWorld.entropy.take 12 ∧
      (envelope.drop 12).take 32 =
        toyCrypto.hmacSha256 sampleKey
          (toyCrypto.gcmSeal sampleKey (plainWorld.entropy.take 12) [1, 2, 3]) ∧
      envelope.drop 44 = toyCrypto.gcmSeal sampleKey (plainWorld.entropy.take 12) [1, 2, 3] ∧
      envelope.length =
        44 + (toyCrypto.gcmSeal sampleKey (plainWorld.entropy.take 12) [1, 2, 3]).length ∧
      envelope.length = ([1, 2, 3] : Bytes).length + 60 :=
  C5_envelope_layout toyCrypto toyCrypto_sound plainWorld [[112]] [[101]] sampleKey [1, 2, 3]
    (by decide) (by decide) (by decide) (by decide)


/-! ## The paths of `DecryptFile` through a full-length envelope -/

theorem DecryptFile_tag_mismatch (c : Crypto) (w : World) (inputFile outputFile : Path)
    (key envelope : Bytes)
    (hin : readFile w inputFile = .ok envelope) (hlen : 44 ≤ envelope.length)
    (hk : aesNewCipher key = .ok ()) (hg : c.newGCM key = true)
    (htag : c.hmacSha256 key (envelope.drop 44) ≠ (envelope.drop 12).take 32) :
    DecryptFile c inputFile outputFile key w =
      (some (.errorf integrityMsg),
       { w with trace := w.trace ++
          [.hmac (envelope.drop 44) key, .log "Tamper Detection" inputFile false] }) := by
  have hge : ¬ envelope.length < 44 := by omega
  simp [DecryptFile, hin, hk, hg, hge, generateHMAC, nonceSize, hmacSize, htag, logEvent]

theorem DecryptFile_open_fails (c : Crypto) (w : World) (inputFile outputFile : Path)
    (key envelope : Bytes)
    (hin : readFile w inputFile = .ok envelope) (hlen : 44 ≤ envelope.length)
    (hk : aesNewCipher key = .ok ()) (hg : c.newGCM key = true)
    (htag : c.hmacSha256 key (envelope.drop 44) = (envelope.drop 12).take 32)
    (ho : c.gcmOpen key (envelope.take 12) (envelope.drop 44) = none) :
    DecryptFile c inputFile outputFile key w =
      (some .errOpen,
       { w with trace := w.trace ++
          [.hmac (envelope.drop 44) key,
           .gcmOpen key (envelope.take 12) (envelope.drop 44),
           .log "Decryption" inputFile false] }) := by
  have hge : ¬ envelope.length < 44 := by omega
  simp [DecryptFile, hin, hk, hg, hge, generateHMAC, nonceSize, hmacSize, htag, ho, logEvent]

theorem DecryptFile_write_fails (c : Crypto) (w : World) (inputFile outputFile : Path)
    (key envelope plaintext : Bytes)
    (hin : readFile w inputFile = .ok envelope) (hlen : 44 ≤ envelope.length)
    (hk : aesNewCipher key = .ok ()) (hg : c.newGCM key = true)
    (htag : c.hmacSha256 key (envelope.drop 44) = (envelope.drop 12).take 32)
    (ho : c.gcmOpen key (envelope.take 12) (envelope.drop 44) = some plaintext)
    (hw : canWrite w outputFile = false) :
    DecryptFile c inputFile outputFile key w =
      (some (.pathError "open" outputFile),
       { w with trace := w.trace ++
          [.hmac (envelope.drop 44) key,
           .gcmOpen key (envelope.take 12) (envelope.drop 44),
           .write outputFile plaintext,
           .log "Decryption" inputFile false] }) := by
  have hge : ¬ envelope.length < 44 := by omega
  have hw' : ∀ (t : List Event),
      canWrite { fs := w.fs, denied := w.denied, entropy := w.entropy, trace := t }
        outputFile = false := by
    intro t
    rw [← hw]; rfl
  simp [DecryptFile, hin, hk, hg, hge, generateHMAC, nonceSize, hmacSize, htag, ho, logEvent,
    writeFile, hw']

theorem DecryptFile_write_ok (c : Crypto) (w : World) (inputFile outputFile : Path)
    (key envelope plaintext : Bytes)
    (hin : readFile w inputFile = .ok envelope) (hlen : 44 ≤ envelope.length)
    (hk : aesNewCipher key = .ok ()) (hg : c.newGCM key = true)
    (htag : c.hmacSha256 key (envelope.drop 44) = (envelope.drop 12).take 32)
    (ho : c.gcmOpen key (envelope.take 12) (envelope.drop 44) = some plaintext)
    (hw : canWrite w outputFile = true) :
    DecryptFile c inputFile outputFile key w =
      (none,
       { w with
         fs := fun q => if q = outputFile then some (.file plaintext) else w.fs q
         trace := w.trace ++
          [.hmac (envelope.drop 44) key,
           .gcmOpen key (envelope.take 12) (envelope.drop 44),
           .write outputFile plaintext,
           .log "Decryption" inputFile true] }) := by
  have hge : ¬ envelope.length < 44 := by omega
  have hw' : ∀ (t : List Event),
      canWrite { fs := w.fs, denied := w.denied, entropy := w.entropy, trace := t }
        outputFile = true := by
    intro t
    rw [← hw]; rfl
  simp [DecryptFile, hin, hk, hg, hge, generateHMAC, nonceSize, hmacSize, htag, ho, logEvent,
    writeFile, hw']

theorem DecryptFile_short (c : Crypto) (w : World) (inputFile outputFile : Path)
    (key envelope : Bytes)
    (hin : readFile w inputFile = .ok envelope) (hlen : envelope.length < 44)
    (hk : aesNewCipher key = .ok ()) (hg : c.newGCM key = true) :
    DecryptFile c inputFile outputFile key w =
      (some (.errorf "ciphertext too short"), logEvent "Decryption" inputFile false w) := by
  simp [DecryptFile, hin, hk, hg, nonceSize, hmacSize, hlen]

theorem DecryptFile_setup_fails (c : Crypto) (w : World) (inputFile outputFile : Path)
    (key : Bytes)
    (h : (∃ e, readFile w inputFile = .error e) ∨ (∃ e, aesNewCipher key = .error e) ∨
      c.newGCM key = false) :
    (DecryptFile c inputFile outputFile key w).1 ≠ none ∧
    (DecryptFile c inputFile outputFile key w).2 = logEvent "Decryption" inputFile false w := by
  unfold DecryptFile
  cases hr : readFile w inputFile with
  | error e => simp
  | ok env =>
    cases hk : aesNewCipher key with
    | error e => simp
    | ok u =>
      rcases h with ⟨e, he⟩ | ⟨e, he⟩ | hg
      · rw [hr] at he; cases he
      · rw [hk] at he; cases he
      · simp [hg]

theorem trace_extends (t a b : List Event) : t ++ a <+: t ++ (a ++ b) :=
  ⟨b, by simp⟩

/-! ## Malformed envelopes and the integrity check (C4, C6) -/

/-- C4, as stated, fails: with a key the cipher rejects (here the empty key) a
three-byte envelope is answered with the key-size error of `aes.NewCipher`,
not with "ciphertext too short". -/
theorem C4_bad_key_masks_short_envelope :
    readFile shortEnvelopeWorld [[101]] = .ok [1, 2, 3] ∧
    (DecryptFile toyCrypto [[101]] [[111]] [] shortEnvelopeWorld).1
      = some (.keySizeError 0) ∧
    (DecryptFile toyCrypto [[101]] [[111]] [] shortEnvelopeWorld).1
      ≠ some (.errorf "ciphertext too short") := by
  decide

/-- C4, amended: an envelope shorter than 44 bytes is never handed to the tag
computation or to the AEAD open, whatever the key: the call fails and adds one
failure record and nothing else.  For every key the cipher accepts the error
is "ciphertext too short".  An envelope of at least 44 bytes is split at the
offsets 12 and 44: the tag is computed over bytes `[44:]`, compared with bytes
`[12:44]`, and on a match bytes `[44:]` are opened under the nonce `[0:12]`. -/
theorem C4_malformed_envelope (c : Crypto) (w : World) (inputFile outputFile : Path)
    (key envelope : Bytes)
    (hin : readFile w inputFile = .ok envelope) :
    (envelope.length < 44 →
      (DecryptFile c inputFile outputFile key w).1 ≠ none ∧
      (DecryptFile c inputFile outputFile key w).2 = logEvent "Decryption" inputFile false w) ∧
    (envelope.length < 44 → aesNewCipher key = .ok () → c.newGCM key = true →
      (DecryptFile c inputFile outputFile key w).1 = some (.errorf "ciphertext too short")) ∧
    (44 ≤ envelope.length → aesNewCipher key = .ok () → c.newGCM key = true →
      (w.trace ++ [.hmac (envelope.drop 44) key]) <+:
        (DecryptFile c inputFile outputFile key w).2.trace ∧
      (c.hmacSha256 key (envelope.drop 44) ≠ (envelope.drop 12).take 32 →
        (DecryptFile c inputFile outputFile key w).1 = some (.errorf integrityMsg)) ∧
      (c.hmacSha256 key (envelope.drop 44) = (envelope.drop 12).take 32 →
        (w.trace ++ [.hmac (envelope.drop 44) key,
            .gcmOpen key (envelope.take 12) (envelope.drop 44)]) <+:
          (DecryptFile c inputFile outputFile key w).2.trace)) := by
  refine ⟨?_, ?_, ?_⟩
  · intro hlen
    cases hk : aesNewCipher key with
    | error e => exact DecryptFile_setup_fails c w _ _ key (Or.inr (Or.inl ⟨e, hk⟩))
    | ok u =>
      by_cases hg : c.newGCM key = true
      · rw [DecryptFile_short c w _ _ key envelope hin hlen hk hg]
        simp
      · exact DecryptFile_setup_fails c w _ _ key (Or.inr (Or.inr (by simpa using hg)))
  · intro hlen hk hg
    rw [DecryptFile_short c w _ _ key envelope hin hlen hk hg]
  · intro hlen hk hg
    by_cases htag : c.hmacSha256 key (envelope.drop 44) = (envelope.drop 12).take 32
    · cases ho : c.gcmOpen key (envelope.take 12) (envelope.drop 44) with
      | none =>
        rw [DecryptFile_open_fails c w _ _ key envelope hin hlen hk hg htag ho]
        exact ⟨trace_extends _ [_] [_, _], fun h => absurd htag h, fun _ => trace_extends _ [_, _] [_]⟩
      | some p =>
        cases hw : canWrite w outputFile with
        | false =>
          rw [DecryptFile_write_fails c w _ _ key envelope p hin hlen hk hg htag ho hw]
          exact ⟨trace_extends _ [_] [_, _, _], fun h => absurd htag h,
            fun _ => trace_extends _ [_, _] [_, _]⟩
        | true =>
          rw [DecryptFile_write_ok c w _ _ key envelope p hin hlen hk hg htag ho hw]
          exact ⟨trace_extends _ [_] [_, _, _], fun h => absurd htag h,
            fun _ => trace_extends _ [_, _] [_, _]⟩
    · rw [DecryptFile_tag_mismatch c w _ _ key envelope hin hlen hk hg htag]
      exact ⟨trace_extends _ [_] [_], fun _ => rfl, fun h => absurd h htag⟩

theorem C4_malformed_envelope_witness :
    readFile shortEnvelopeWorld [[101]] = .ok [1, 2, 3] ∧
    (([1, 2, 3] : Bytes).length < 44 → aesNewCipher sampleKey = .ok () →
      toyCrypto.newGCM sampleKey = true →
      (DecryptFile toyCrypto [[101]] [[111]] sampleKey shortEnvelopeWorld).1
        = some (.errorf "ciphertext too short")) :=
  ⟨by decide,
   (C4_malformed_envelope toyCrypto shortEnvelopeWorld [[101]] [[111]] sampleKey [1, 2, 3]
      (by decide)).2.1⟩

/-- C6: on an envelope of at least 44 bytes and under a key the cipher
accepts, a stored tag different from the HMAC of bytes `[44:]` makes
`DecryptFile` return the integrity error after the tag computation and one
"Tamper Detection" record: no AEAD open is attempted, nothing is written, the
file system is unchanged, and the result is the same whatever the AEAD open
would have answered. -/
theorem C6_integrity_check_precedes_open (c : Crypto) (w : World)
    (inputFile outputFile : Path) (key envelope : Bytes)
    (hin : readFile w inputFile = .ok envelope) (hlen : 44 ≤ envelope.length)
    (hk : aesNewCipher key = .ok ()) (hg : c.newGCM key = true)
    (htag : (envelope.drop 12).take 32 ≠ c.hmacSha256 key (envelope.drop 44)) :
    DecryptFile c inputFile outputFile key w =
      (some (.errorf integrityMsg),
       { w with trace := w.trace ++
          [.hmac (envelope.drop 44) key, .log "Tamper Detection" inputFile false] }) ∧
    (∀ gcmOpen2 : Bytes → Bytes → Bytes → Option Bytes,
      DecryptFile { c with gcmOpen := gcmOpen2 } inputFile outputFile key w =
        DecryptFile c inputFile outputFile key w) := by
  have h1 := DecryptFile_tag_mismatch c w inputFile outputFile key envelope hin hlen hk hg
    (fun h => htag h.symm)
  refine ⟨h1, fun gcmOpen2 => ?_⟩
  rw [h1]
  exact DecryptFile_tag_mismatch { c with gcmOpen := gcmOpen2 } w inputFile outputFile key
    envelope hin hlen hk hg (fun h => htag h.symm)

set_option maxRecDepth 100000 in
theorem forgedEnvelope_tag_differs :
    ((List.replicate 60 0 : Bytes).drop 12).take 32 ≠
      toyCrypto.hmacSha256 sampleKey ((List.replicate 60 0 : Bytes).drop 44) := by
  decide

theorem C6_integrity_check_precedes_open_witness :
    readFile forgedEnvelopeWorld [[101]] = .ok (List.replicate 60 0) ∧
    DecryptFile toyCrypto [[101]] [[111]] sampleKey forgedEnvelopeWorld =
      (some (.errorf integrityMsg),
       { forgedEnvelopeWorld with trace := forgedEnvelopeWorld.trace ++
          [.hmac ((List.replicate 60 0).drop 44) sampleKey,
           .log "Tamper Detection" [[101]] false] }) :=
  ⟨by decide,
   (C6_integrity_check_precedes_open toyCrypto forgedEnvelopeWorld [[101]] [[111]] sampleKey
      (List.replicate 60 0) (by decide) (by decide) (by decide) (by decide)
      forgedEnvelope_tag_differs).1⟩

/-! ## Audit records (C9) -/

theorem oneRecord_of (t pre : List Event) (record : Event)
    (hpre : pre.filter isLog = []) (hrec : isLog record = true) :
    OneRecord t (t ++ (pre ++ [record])) record := by
  refine ⟨⟨_, rfl⟩, ?_, ?_⟩
  · simp [List.filter_append, hpre, hrec]
  · rw [← List.append_assoc, List.getLast?_append]
    simp

theorem EncryptFile_oneRecord (c : Crypto) (w : World) (inputFile outputFile : Path)
    (key : Bytes) :
    OneRecord w.trace (EncryptFile c inputFile outputFile key w).2.trace
      (.log "Encryption" inputFile (EncryptFile c inputFile outputFile key w).1.isNone) := by
  cases hr : readFile w inputFile with
  | error e =>
    have h : EncryptFile c inputFile outputFile key w =
        (some e, logEvent "Encryption" inputFile false w) := by simp [EncryptFile, hr]
    rw [h]
    exact oneRecord_of w.trace [] _ rfl rfl
  | ok plaintext =>
    cases hk : aesNewCipher key with
    | error e =>
      have h : EncryptFile c inputFile outputFile key w =
          (some e, logEvent "Encryption" inputFile false w) := by simp [EncryptFile, hr, hk]
      rw [h]
      exact oneRecord_of w.trace [] _ rfl rfl
    | ok u =>
      by_cases hrand : 12 ≤ w.entropy.length
      · by_cases hg : c.newGCM key = true
        · cases hw : canWrite w outputFile with
          | true =>
            rw [EncryptFile_success c w inputFile outputFile key plaintext hr hk hrand hg hw]
            exact oneRecord_of w.trace [_, _, _] _ rfl rfl
          | false =>
            have hw' : ∀ (e : Bytes) (t : List Event),
                canWrite { fs := w.fs, denied := w.denied, entropy := e, trace := t }
                  outputFile = false := by
              intro e t
              rw [← hw]; rfl
            have h : EncryptFile c inputFile outputFile key w =
                (some (.pathError "open" outputFile),
                 { w with
                   entropy := w.entropy.drop 12
                   trace := w.trace ++
                     ([.gcmSeal key (w.entropy.take 12) plaintext,
                       .hmac (c.gcmSeal key (w.entropy.take 12) plaintext) key,
                       .write outputFile (w.entropy.take 12 ++
                        (c.hmacSha256 key (c.gcmSeal key (w.entropy.take 12) plaintext) ++
                          c.gcmSeal key (w.entropy.take 12) plaintext))] ++
                      [.log "Encryption" inputFile false]) }) := by
              simp [EncryptFile, hr, hk, readNonce, hrand, hg, generateHMAC, writeFile, hw',
                logEvent]
            rw [h]
            exact oneRecord_of w.trace [_, _, _] _ rfl rfl
        · have h : EncryptFile c inputFile outputFile key w =
              (some .gcmError, logEvent "Encryption" inputFile false
                { w with entropy := w.entropy.drop 12 }) := by
            simp [EncryptFile, hr, hk, readNonce, hrand, hg]
          rw [h]
          exact oneRecord_of w.trace [] _ rfl rfl
      · have h : EncryptFile c inputFile outputFile key w =
            (some .randError, logEvent "Encryption" inputFile false
              { w with entropy := [] }) := by
          simp [EncryptFile, hr, hk, readNonce, hrand]
        rw [h]
        exact oneRecord_of w.trace [] _ rfl rfl

theorem DecryptFile_oneRecord (c : Crypto) (w : World) (inputFile outputFile : Path)
    (key : Bytes) :
    OneRecord w.trace (DecryptFile c inputFile outputFile key w).2.trace
      (.log (if tagMismatch c w inputFile key = true then "Tamper Detection" else "Decryption")
        inputFile (DecryptFile c inputFile outputFile key w).1.isNone) := by
  have setup : ((∃ e, readFile w inputFile = .error e) ∨ (∃ e, aesNewCipher key = .error e) ∨
      c.newGCM key = false) → tagMismatch c w inputFile key = false →
      OneRecord w.trace (DecryptFile c inputFile outputFile key w).2.trace
      (.log (if tagMismatch c w inputFile key = true then "Tamper Detection" else "Decryption")
        inputFile (DecryptFile c inputFile outputFile key w).1.isNone) := by
    intro h hm
    obtain ⟨h1, h2⟩ := DecryptFile_setup_fails c w inputFile outputFile key h
    have h3 : (DecryptFile c inputFile outputFile key w).1.isNone = false := by
      cases hx : (DecryptFile c inputFile outputFile key w).1 with
      | none => exact absurd hx h1
      | some e => rfl
    rw [h2, h3, hm]
    exact oneRecord_of w.trace [] _ rfl rfl
  cases hr : readFile w inputFile with
  | error e => exact setup (Or.inl ⟨e, hr⟩) (by simp [tagMismatch, hr])
  | ok envelope =>
    cases hk : aesNewCipher key with
    | error e => exact setup (Or.inr (Or.inl ⟨e, hk⟩)) (by simp [tagMismatch, hr, hk])
    | ok u =>
      cases hg : c.newGCM key with
      | false => exact setup (Or.inr (Or.inr hg)) (by simp [tagMismatch, hr, hg])
      | true =>
        by_cases hlen : 44 ≤ envelope.length
        · by_cases htag : c.hmacSha256 key (envelope.drop 44) = (envelope.drop 12).take 32
          · have hm : tagMismatch c w inputFile key = false := by
              simp [tagMismatch, hr, htag]
            rw [hm]
            cases ho : c.gcmOpen key (envelope.take 12) (envelope.drop 44) with
            | none =>
              rw [DecryptFile_open_fails c w _ _ key envelope hr hlen hk hg htag ho]
              exact oneRecord_of w.trace [_, _] _ rfl rfl
            | some p =>
              cases hw : canWrite w outputFile with
              | false =>
                rw [DecryptFile_write_fails c w _ _ key envelope p hr hlen hk hg htag ho hw]
                exact oneRecord_of w.trace [_, _, _] _ rfl rfl
              | true =>
                rw [DecryptFile_write_ok c w _ _ key envelope p hr hlen hk hg htag ho hw]
                exact oneRecord_of w.trace [_, _, _] _ rfl rfl
          · have hm : tagMismatch c w inputFile key = true := by
              simp [tagMismatch, hr, hk, hg, hlen, htag]
            rw [hm, DecryptFile_tag_mismatch c w _ _ key envelope hr hlen hk hg htag]
            exact oneRecord_of w.trace [_] _ rfl rfl
        · have hm : tagMismatch c w inputFile key = false := by
            simp [tagMismatch, hr, hlen]
          rw [hm, DecryptFile_short c w _ _ key envelope hr (by omega) hk hg]
          exact oneRecord_of w.trace [] _ rfl rfl

/-- C9: every call of `EncryptFile` or `DecryptFile` adds exactly one audit
record to the trace, as its last step; the record carries `success = true`
exactly when the call returns no error, and its kind is "Tamper Detection"
exactly on the tag-mismatch path ("Encryption", respectively "Decryption",
everywhere else). -/
theorem C9_one_audit_record (c : Crypto) (w : World) (inputFile outputFile : Path)
    (key : Bytes) :
    (w.trace <+: (EncryptFile c inputFile outputFile key w).2.trace ∧
     ((EncryptFile c inputFile outputFile key w).2.trace.drop w.trace.length).filter isLog =
       [.log "Encryption" inputFile (EncryptFile c inputFile outputFile key w).1.isNone] ∧
     (EncryptFile c inputFile outputFile key w).2.trace.getLast? =
       some (.log "Encryption" inputFile (EncryptFile c inputFile outputFile key w).1.isNone)) ∧
    (w.trace <+: (DecryptFile c inputFile outputFile key w).2.trace ∧
     ((DecryptFile c inputFile outputFile key w).2.trace.drop w.trace.length).filter isLog =
       [.log (if tagMismatch c w inputFile key = true then "Tamper Detection" else "Decryption")
         inputFile (DecryptFile c inputFile outputFile key w).1.isNone] ∧
     (DecryptFile c inputFile outputFile key w).2.trace.getLast? =
       some (.log
         (if tagMismatch c w inputFile key = true then "Tamper Detection" else "Decryption")
         inputFile (DecryptFile c inputFile outputFile key w).1.isNone)) :=
  ⟨EncryptFile_oneRecord c w inputFile outputFile key,
   DecryptFile_oneRecord c w inputFile outputFile key⟩

/-! ## Paths -/

theorem appendSuffix_eq (r : Path) (s : Bytes) (hr : r ≠ []) :
    appendSuffix r s = r.dropLast ++ [r.getLast hr ++ s] := by
  induction r with
  | nil => exact absurd rfl hr
  | cons a t ih =>
    cases t with
    | nil => simp [appendSuffix]
    | cons b u =>
      have := ih (by simp)
      simp only [appendSuffix, List.dropLast_cons₂, List.cons_append, List.getLast_cons_cons]
      rw [this]

theorem appendSuffix_dropLast (r : Path) (s : Bytes) (hr : r ≠ []) :
    (appendSuffix r s).dropLast = r.dropLast := by
  rw [appendSuffix_eq r s hr, List.dropLast_concat]

/-- Whatever the primitives, a file encrypted under a 16-byte key and
decrypted under that key followed by eight zero bytes passes the tag check:
the answer is never the integrity error. -/
theorem zero_extended_key_passes_tag_check (c : Crypto) (hc : c.Sound) (w : World)
    (inputFile encFile outFile : Path) (key plaintext : Bytes)
    (hkey : key.length = 16)
    (hin : readFile w inputFile = .ok plaintext)
    (hrand : 12 ≤ w.entropy.length)
    (hw1 : canWrite w encFile = true) :
    (DecryptFile c encFile outFile (key ++ List.replicate 8 0)
      (EncryptFile c inputFile encFile key w).2).1 ≠ some (.errorf integrityMsg) := by
  have hk : aesNewCipher key = .ok () := by simp [aesNewCipher, hkey]
  have hk2 : aesNewCipher (key ++ List.replicate 8 0) = .ok () := by simp [aesNewCipher, hkey]
  have hn : (w.entropy.take 12).length = 12 := by simp [List.length_take]; omega
  have hd1 : w.denied encFile = false := by
    simp only [canWrite, Bool.and_eq_true, Bool.not_eq_true'] at hw1
    exact hw1.1.1.2
  have hE := EncryptFile_success c w inputFile encFile key plaintext hin hk hrand
    (hc.newGCM_ok key hk) hw1
  generalize hct : c.gcmSeal key (w.entropy.take 12) plaintext = ct at hE
  generalize hw2 : (EncryptFile c inputFile encFile key w).2 = w2
  have hread : readFile w2 encFile =
      .ok (w.entropy.take 12 ++ (c.hmacSha256 key ct ++ ct)) := by
    rw [← hw2, hE]; simp [readFile, hd1]
  have ht := hc.hmac_length key ct
  have hlen : 44 ≤ (w.entropy.take 12 ++ (c.hmacSha256 key ct ++ ct)).length := by
    simp only [List.length_append, hn, ht]; omega
  have h2 : ((w.entropy.take 12 ++ (c.hmacSha256 key ct ++ ct)).drop 12).take 32 =
      c.hmacSha256 key ct := by
    rw [List.drop_append_eq_append_drop]; simp [hn, List.take_append_eq_append_take, ht]
  have h3 : (w.entropy.take 12 ++ (c.hmacSha256 key ct ++ ct)).drop 44 = ct := by
    rw [List.drop_append_eq_append_drop]; simp [hn, List.drop_append_eq_append_drop, ht]
  have htag : c.hmacSha256 (key ++ List.replicate 8 0)
      ((w.entropy.take 12 ++ (c.hmacSha256 key ct ++ ct)).drop 44) =
      ((w.entropy.take 12 ++ (c.hmacSha256 key ct ++ ct)).drop 12).take 32 := by
    rw [h2, h3]
    exact hmacSha256_zero_extended_key c key ct 8 (by omega)
  have hg2 := hc.newGCM_ok _ hk2
  cases ho : c.gcmOpen (key ++ List.replicate 8 0)
      ((w.entropy.take 12 ++ (c.hmacSha256 key ct ++ ct)).take 12)
      ((w.entropy.take 12 ++ (c.hmacSha256 key ct ++ ct)).drop 44) with
  | none =>
    rw [DecryptFile_open_fails c w2 _ _ _ _ hread hlen hk2 hg2 htag ho]
    simp
  | some p =>
    cases hcw : canWrite w2 outFile with
    | false =>
      rw [DecryptFile_write_fails c w2 _ _ _ _ p hread hlen hk2 hg2 htag ho hcw]
      simp
    | true =>
      rw [DecryptFile_write_ok c w2 _ _ _ _ p hread hlen hk2 hg2 htag ho hcw]
      simp

set_option maxRecDepth 100000 in
theorem paddedKey_run :
    (EncryptFile toyCrypto [[112]] [[101]] shortKey plainWorld).1 = none ∧
    (DecryptFile toyCrypto [[101]] [[111]] paddedKey
      (EncryptFile toyCrypto [[112]] [[101]] shortKey plainWorld).2).1 = some .errOpen := by
  decide

/-- C3, as stated, fails: the 16-byte key `shortKey` and the 24-byte key
`paddedKey` (the same bytes followed by zeros) are distinct and both accepted
by the cipher, yet HMAC pads both to the same block, so the envelope made
under `shortKey` passes the tag check under `paddedKey` and the call ends in
the AEAD error, not in the integrity error. -/
theorem C3_zero_extended_key_not_integrity_error :
    aesNewCipher shortKey = .ok () ∧ aesNewCipher paddedKey = .ok () ∧
    shortKey ≠ paddedKey ∧
    (EncryptFile toyCrypto [[112]] [[101]] shortKey plainWorld).1 = none ∧
    (DecryptFile toyCrypto [[101]] [[111]] paddedKey
      (EncryptFile toyCrypto [[112]] [[101]] shortKey plainWorld).2).1 = some .errOpen ∧
    (DecryptFile toyCrypto [[101]] [[111]] paddedKey
      (EncryptFile toyCrypto [[112]] [[101]] shortKey plainWorld).2).1
        ≠ some (.errorf integrityMsg) :=
  ⟨by decide, by decide, by decide, paddedKey_run.1, paddedKey_run.2,
   zero_extended_key_passes_tag_check toyCrypto toyCrypto_sound plainWorld [[112]] [[101]]
     [[111]] shortKey [1, 2, 3] (by decide) (by decide) (by decide) (by decide)⟩

/-- C3, amended: for every plaintext and every two keys the cipher accepts
whose HMAC-SHA-256 tags over the ciphertext differ, `DecryptFile` under the
second key on the envelope `EncryptFile` made under the first fails with the
integrity error (its text starts with "integrity check failed"), not with the
AEAD error, while `DecryptFile` under the first key succeeds. -/
theorem C3_wrong_key_rejected (c : Crypto) (hc : c.Sound) (w : World)
    (inputFile encFile outFile : Path) (key1 key2 plaintext : Bytes)
    (hk1 : aesNewCipher key1 = .ok ()) (hk2 : aesNewCipher key2 = .ok ())
    (hin : readFile w inputFile = .ok plaintext)
    (hrand : 12 ≤ w.entropy.length)
    (hw1 : canWrite w encFile = true)
    (hw2 : canWrite (EncryptFile c inputFile encFile key1 w).2 outFile = true)
    (htag : c.hmacSha256 key2 (c.gcmSeal key1 (w.entropy.take 12) plaintext) ≠
      c.hmacSha256 key1 (c.gcmSeal key1 (w.entropy.take 12) plaintext)) :
    (EncryptFile c inputFile encFile key1 w).1 = none ∧
    (DecryptFile c encFile outFile key2 (EncryptFile c inputFile encFile key1 w).2).1 =
      some (.errorf integrityMsg) ∧
    (DecryptFile c encFile outFile key2 (EncryptFile c inputFile encFile key1 w).2).1 ≠
      some .errOpen ∧
    integrityMsg.data.take 22 = "integrity check failed".data ∧
    (DecryptFile c encFile outFile key1 (EncryptFile c inputFile encFile key1 w).2).1 = none := by
  have hn : (w.entropy.take 12).length = 12 := by simp [List.length_take]; omega
  have hd1 : w.denied encFile = false := by
    simp only [canWrite, Bool.and_eq_true, Bool.not_eq_true'] at hw1
    exact hw1.1.1.2
  have hE := EncryptFile_success c w inputFile encFile key1 plaintext hin hk1 hrand
    (hc.newGCM_ok key1 hk1) hw1
  generalize hct : c.gcmSeal key1 (w.entropy.take 12) plaintext = ct at hE htag
  have hopen : c.gcmOpen key1 (w.entropy.take 12) ct = some plaintext := by
    rw [← hct]; exact hc.open_seal key1 _ plaintext hk1 hn
  have he1 : (EncryptFile c inputFile encFile key1 w).1 = none := by rw [hE]
  generalize hw2eq : (EncryptFile c inputFile encFile key1 w).2 = w2 at hw2 ⊢
  have hread : readFile w2 encFile =
      .ok (w.entropy.take 12 ++ (c.hmacSha256 key1 ct ++ ct)) := by
    rw [← hw2eq, hE]; simp [readFile, hd1]
  have ht := hc.hmac_length key1 ct
  have hlen : 44 ≤ (w.entropy.take 12 ++ (c.hmacSha256 key1 ct ++ ct)).length := by
    simp only [List.length_append, hn, ht]; omega
  have h2 : ((w.entropy.take 12 ++ (c.hmacSha256 key1 ct ++ ct)).drop 12).take 32 =
      c.hmacSha256 key1 ct := by
    rw [List.drop_append_eq_append_drop]; simp [hn, List.take_append_eq_append_take, ht]
  have h3 : (w.entropy.take 12 ++ (c.hmacSha256 key1 ct ++ ct)).drop 44 = ct := by
    rw [List.drop_append_eq_append_drop]; simp [hn, List.drop_append_eq_append_drop, ht]
  have hbad := DecryptFile_tag_mismatch c w2 encFile outFile key2 _ hread hlen hk2
    (hc.newGCM_ok key2 hk2) (by rw [h2, h3]; exact htag)
  have hgood := DecryptFile_success c w2 encFile outFile key1 (w.entropy.take 12)
    (c.hmacSha256 key1 ct) ct plaintext hread hn ht hk1 (hc.newGCM_ok key1 hk1) rfl hopen hw2
  rw [hbad, hgood]
  exact ⟨he1, rfl, by simp, by decide, rfl⟩

set_option maxRecDepth 100000 in
theorem otherKey_tag_differs :
    toyCrypto.hmacSha256 otherKey
        (toyCrypto.gcmSeal sampleKey (plainWorld.entropy.take 12) [1, 2, 3]) ≠
      toyCrypto.hmacSha256 sampleKey
        (toyCrypto.gcmSeal sampleKey (plainWorld.entropy.take 12) [1, 2, 3]) := by
  decide

theorem C3_wrong_key_rejected_witness :
    aesNewCipher sampleKey = .ok () ∧ aesNewCipher otherKey = .ok () ∧
    (DecryptFile toyCrypto [[101]] [[111]] otherKey
      (EncryptFile toyCrypto [[112]] [[101]] sampleKey plainWorld).2).1 =
      some (.errorf integrityMsg) ∧
    (DecryptFile toyCrypto [[101]] [[111]] sampleKey
      (EncryptFile toyCrypto [[112]] [[101]] sampleKey plainWorld).2).1 = none :=
  have h := C3_wrong_key_rejected toyCrypto toyCrypto_sound plainWorld [[112]] [[101]] [[111]]
    sampleKey otherKey [1, 2, 3] (by decide) (by decide) (by decide) (by decide) (by decide)
    (by decide) otherKey_tag_differs
  ⟨by decide, by decide, h.2.1, h.2.2.2.2⟩

end SecureFiles
